import Mathlib

/-!
Verification of the pqtest database lifecycle subsystem (`pqtest.go`):
unique time-sortable name generation, schema/migration resolution,
and the opportunistic garbage collector.

Strings that flow into SQL comparisons are modelled as `List Char`
(ASCII byte-wise comparison, i.e. the C collation that the boundary
trick of the garbage collector relies on).
-/

namespace Pqtest

/-- Byte-wise (memcmp-style) lexicographic strict order on character
lists: the first differing character decides; a strict prefix is
smaller.  This is how Go compares strings and how Postgres compares
`text` under the C collation. -/
def lexLt : List Char → List Char → Bool
  | _, [] => false
  | [], _ :: _ => true
  | a :: as, b :: bs =>
    if a < b then true
    else if b < a then false
    else lexLt as bs

theorem lexLt_irrefl (l : List Char) : lexLt l l = false := by
  induction l with
  | nil => rfl
  | cons a as ih =>
    simp only [lexLt, lt_irrefl, if_false, ih]

theorem lexLt_asymm {a b : List Char} (h : lexLt a b = true) :
    lexLt b a = false := by
  induction a generalizing b with
  | nil => cases b <;> rfl
  | cons x xs ih =>
    cases b with
    | nil => simp [lexLt] at h
    | cons y ys =>
      by_cases hxy : x < y
      · have hyx : ¬ y < x := lt_asymm hxy
        simp [lexLt, hyx, hxy]
      · by_cases hyx : y < x
        · simp [lexLt, hxy, hyx] at h
        · simp only [lexLt, hxy, if_false, hyx] at h
          simp [lexLt, hxy, hyx, ih h]

theorem lexLt_append_same (p x y : List Char) :
    lexLt (p ++ x) (p ++ y) = lexLt x y := by
  induction p with
  | nil => rfl
  | cons a as ih => simp [lexLt, ih]

theorem lexLt_append_of_lt {a b : List Char} (x y : List Char)
    (hlen : a.length = b.length) (h : lexLt a b = true) :
    lexLt (a ++ x) (b ++ y) = true := by
  induction a generalizing b with
  | nil =>
    cases b with
    | nil => rw [show lexLt [] [] = false from rfl] at h; cases h
    | cons _ _ => simp at hlen
  | cons c cs ih =>
    cases b with
    | nil => simp at hlen
    | cons d ds =>
      simp only [List.length_cons, Nat.succ.injEq] at hlen
      by_cases hcd : c < d
      · simp [lexLt, hcd]
      · by_cases hdc : d < c
        · simp [lexLt, hcd, hdc] at h
        · simp only [lexLt, hcd, if_false, hdc] at h
          simp [lexLt, hcd, hdc, ih hlen h]

/-- The decimal rendering of `n` zero-padded on the left to exactly `w`
digits (most significant first); the shape Go's fixed-width time
formatting (`"20060102150405"`) produces for each in-range component. -/
def padDigits : Nat → Nat → List Char
  | 0, _ => []
  | w + 1, n => padDigits w (n / 10) ++ [Nat.digitChar (n % 10)]

theorem padDigits_length (w n : Nat) : (padDigits w n).length = w := by
  induction w generalizing n with
  | zero => rfl
  | succ w ih => simp [padDigits, ih]

theorem digitChar_lt_digitChar :
    ∀ b < 10, ∀ a < b, Nat.digitChar a < Nat.digitChar b := by decide

theorem digitChar_isDigit : ∀ a < 10, (Nat.digitChar a).isDigit := by decide

theorem padDigits_mem_isDigit {w n : Nat} (hn : n < 10 ^ w) :
    ∀ c ∈ padDigits w n, c.isDigit := by
  induction w generalizing n with
  | zero => intro c hc; simp [padDigits] at hc
  | succ w ih =>
    intro c hc
    simp only [padDigits, List.mem_append, List.mem_singleton] at hc
    rcases hc with hc | hc
    · exact ih (Nat.div_lt_of_lt_mul (by simpa [Nat.pow_succ, Nat.mul_comm] using hn)) c hc
    · subst hc
      exact digitChar_isDigit _ (Nat.mod_lt _ (by norm_num))

theorem padDigits_lt {w m n : Nat} (hmn : m < n) (hn : n < 10 ^ w) :
    lexLt (padDigits w m) (padDigits w n) = true := by
  induction w generalizing m n with
  | zero =>
    exfalso
    exact absurd (Nat.lt_of_lt_of_le hmn (Nat.le_of_lt_succ (by simpa using hn)))
      (Nat.not_lt_zero m)
  | succ w ih =>
    have hn10 : n / 10 < 10 ^ w :=
      Nat.div_lt_of_lt_mul (by simpa [Nat.pow_succ, Nat.mul_comm] using hn)
    have hdiv : m / 10 ≤ n / 10 := Nat.div_le_div_right (Nat.le_of_lt hmn)
    rcases Nat.lt_or_ge (m / 10) (n / 10) with hlt | hge
    · exact lexLt_append_of_lt _ _
        (by simp [padDigits_length]) (ih hlt hn10)
    · have heq : m / 10 = n / 10 := Nat.le_antisymm hdiv hge
      have hmod : m % 10 < n % 10 := by
        have h1 := Nat.div_add_mod m 10
        have h2 := Nat.div_add_mod n 10
        omega
      have hdig : Nat.digitChar (m % 10) < Nat.digitChar (n % 10) :=
        digitChar_lt_digitChar _ (Nat.mod_lt _ (by norm_num)) _ hmod
      simp only [padDigits, heq]
      rw [lexLt_append_same]
      simp [lexLt, hdig]

theorem padDigits_split {w₂ : Nat} (w₁ a : Nat) {b : Nat} (hb : b < 10 ^ w₂) :
    padDigits (w₁ + w₂) (a * 10 ^ w₂ + b) = padDigits w₁ a ++ padDigits w₂ b := by
  induction w₂ generalizing b with
  | zero =>
    have : b = 0 := Nat.lt_one_iff.mp (by simpa using hb)
    subst this
    simp [padDigits]
  | succ w ih =>
    have hdiv : (a * 10 ^ (w + 1) + b) / 10 = a * 10 ^ w + b / 10 := by
      have : a * 10 ^ (w + 1) + b = 10 * (a * 10 ^ w) + b := by ring
      rw [this, Nat.mul_add_div (by norm_num)]
    have hmod : (a * 10 ^ (w + 1) + b) % 10 = b % 10 := by
      have : a * 10 ^ (w + 1) + b = 10 * (a * 10 ^ w) + b := by ring
      rw [this, Nat.mul_add_mod]
    have hb10 : b / 10 < 10 ^ w :=
      Nat.div_lt_of_lt_mul (by simpa [Nat.pow_succ, Nat.mul_comm] using hb)
    have hstep : w₁ + (w + 1) = (w₁ + w) + 1 := by omega
    rw [hstep]
    simp only [padDigits, hdiv, hmod, ih hb10]
    simp [padDigits, List.append_assoc]

/-- A UTC wall-clock instant at the one-second resolution of the
`"20060102150405"` layout (`timeFormat` in the source): the six
components Go's `Format` renders. -/
structure GoTime where
  year : Nat
  month : Nat
  day : Nat
  hour : Nat
  minute : Nat
  second : Nat
deriving DecidableEq, Repr

/-- Calendar-shaped bounds on the components (every value
`time.Time` can hold for years up to 9999 satisfies them). -/
def GoTime.valid (t : GoTime) : Prop :=
  t.year < 10000 ∧ 1 ≤ t.month ∧ t.month ≤ 12 ∧ 1 ≤ t.day ∧ t.day ≤ 31 ∧
    t.hour < 24 ∧ t.minute < 60 ∧ t.second < 60

instance (t : GoTime) : Decidable t.valid := by
  unfold GoTime.valid; infer_instance

/-- Chronological strict order at one-second resolution: lexicographic
on (year, month, day, hour, minute, second). -/
def GoTime.chronoLt (a b : GoTime) : Prop :=
  a.year < b.year ∨ (a.year = b.year ∧
    (a.month < b.month ∨ (a.month = b.month ∧
      (a.day < b.day ∨ (a.day = b.day ∧
        (a.hour < b.hour ∨ (a.hour = b.hour ∧
          (a.minute < b.minute ∨ (a.minute = b.minute ∧
            a.second < b.second)))))))))

instance (a b : GoTime) : Decidable (a.chronoLt b) := by
  unfold GoTime.chronoLt; infer_instance

/-- The components packed into one decimal number
`YYYYMMDDHHMMSS`; `fmtTime` is its 14-digit rendering. -/
def GoTime.enc (t : GoTime) : Nat :=
  ((((t.year * 100 + t.month) * 100 + t.day) * 100 + t.hour) * 100 +
    t.minute) * 100 + t.second

/-- `t.UTC().Format(timeFormat)` with `timeFormat = "20060102150405"`:
the four-digit year followed by two digits each for month, day, hour,
minute and second, all zero-padded. -/
def fmtTime (t : GoTime) : List Char :=
  padDigits 4 t.year ++ padDigits 2 t.month ++ padDigits 2 t.day ++
    padDigits 2 t.hour ++ padDigits 2 t.minute ++ padDigits 2 t.second

/-- `formatDBName` (pqtest.go:155-158): the ephemeral-database name
`"pqtest_" + t.UTC().Format(timeFormat) + "Z_" + suffix`. -/
def formatDBName (suffix : List Char) (t : GoTime) : List Char :=
  "pqtest_".data ++ fmtTime t ++ "Z_".data ++ suffix

theorem fmtTime_length (t : GoTime) : (fmtTime t).length = 14 := by
  simp [fmtTime, padDigits_length]

theorem enc_lt_of_chronoLt {a b : GoTime} (ha : a.valid) (hb : b.valid)
    (h : a.chronoLt b) : a.enc < b.enc := by
  obtain ⟨ha1, ha2, ha3, ha4, ha5, ha6, ha7, ha8⟩ := ha
  obtain ⟨hb1, hb2, hb3, hb4, hb5, hb6, hb7, hb8⟩ := hb
  obtain ⟨ay, am, ad, ah, ami, as⟩ := a
  obtain ⟨by', bm, bd, bh, bmi, bs⟩ := b
  simp only [GoTime.chronoLt] at h
  simp only [GoTime.enc] at *
  rcases h with h | ⟨e1, h⟩
  · nlinarith
  · subst e1
    rcases h with h | ⟨e2, h⟩
    · nlinarith
    · subst e2
      rcases h with h | ⟨e3, h⟩
      · nlinarith
      · subst e3
        rcases h with h | ⟨e4, h⟩
        · nlinarith
        · subst e4
          rcases h with h | ⟨e5, h⟩
          · nlinarith
          · subst e5
            omega

theorem enc_lt_bound {t : GoTime} (ht : t.valid) : t.enc < 10 ^ 14 := by
  obtain ⟨h1, h2, h3, h4, h5, h6, h7, h8⟩ := ht
  obtain ⟨y, m, d, h, mi, s⟩ := t
  simp only [GoTime.enc] at *
  norm_num
  nlinarith

theorem fmtTime_eq_pad14 {t : GoTime} (ht : t.valid) :
    fmtTime t = padDigits 14 t.enc := by
  obtain ⟨h1, h2, h3, h4, h5, h6, h7, h8⟩ := ht
  have e1 : t.enc =
      ((((t.year * 100 + t.month) * 100 + t.day) * 100 + t.hour) * 100 +
        t.minute) * 10 ^ 2 + t.second := by
    simp only [GoTime.enc]; ring
  have hsec : t.second < 10 ^ 2 := by norm_num; omega
  have hmin : t.minute < 10 ^ 2 := by norm_num; omega
  have hhr : t.hour < 10 ^ 2 := by norm_num; omega
  have hday : t.day < 10 ^ 2 := by norm_num; omega
  have hmon : t.month < 10 ^ 2 := by norm_num; omega
  rw [show (14 : Nat) = 12 + 2 from rfl, e1, padDigits_split 12 _ hsec]
  rw [show (12 : Nat) = 10 + 2 from rfl,
    show (((t.year * 100 + t.month) * 100 + t.day) * 100 + t.hour) * 100 +
        t.minute =
      (((t.year * 100 + t.month) * 100 + t.day) * 100 + t.hour) * 10 ^ 2 +
        t.minute from by ring,
    padDigits_split 10 _ hmin]
  rw [show (10 : Nat) = 8 + 2 from rfl,
    show ((t.year * 100 + t.month) * 100 + t.day) * 100 + t.hour =
      ((t.year * 100 + t.month) * 100 + t.day) * 10 ^ 2 + t.hour from by ring,
    padDigits_split 8 _ hhr]
  rw [show (8 : Nat) = 6 + 2 from rfl,
    show (t.year * 100 + t.month) * 100 + t.day =
      (t.year * 100 + t.month) * 10 ^ 2 + t.day from by ring,
    padDigits_split 6 _ hday]
  rw [show (6 : Nat) = 4 + 2 from rfl,
    show t.year * 100 + t.month = t.year * 10 ^ 2 + t.month from by ring,
    padDigits_split 4 _ hmon]
  simp [fmtTime, List.append_assoc]

theorem fmtTime_lt {t₁ t₂ : GoTime} (h1 : t₁.valid) (h2 : t₂.valid)
    (hlt : t₁.chronoLt t₂) : lexLt (fmtTime t₁) (fmtTime t₂) = true := by
  rw [fmtTime_eq_pad14 h1, fmtTime_eq_pad14 h2]
  exact padDigits_lt (enc_lt_of_chronoLt h1 h2 hlt) (enc_lt_bound h2)

theorem fmtTime_isDigit {t : GoTime} (ht : t.valid) :
    ∀ c ∈ fmtTime t, c.isDigit := by
  rw [fmtTime_eq_pad14 ht]
  exact padDigits_mem_isDigit (enc_lt_bound ht)

/-- Names generated at chronologically ordered valid instants are
lexicographically ordered, whatever the suffixes: the timestamp field is
fixed-width, so comparison is decided inside it. -/
theorem formatDBName_lt {t₁ t₂ : GoTime} (s₁ s₂ : List Char)
    (h1 : t₁.valid) (h2 : t₂.valid) (hlt : t₁.chronoLt t₂) :
    lexLt (formatDBName s₁ t₁) (formatDBName s₂ t₂) = true := by
  unfold formatDBName
  simp only [List.append_assoc]
  rw [lexLt_append_same]
  exact lexLt_append_of_lt _ _
    (by rw [fmtTime_length, fmtTime_length]) (fmtTime_lt h1 h2 hlt)

/-- `filepath.Base`: "", all-slash and trailing-slash handling, then the
part after the last separator. -/
def goBase (p : List Char) : List Char :=
  if p = [] then ".".data
  else
    let q := (p.reverse.dropWhile (· = '/')).reverse
    if q = [] then "/".data
    else (q.reverse.takeWhile (· ≠ '/')).reverse

/-- `strings.TrimSuffix s suf`: `s` without the trailing `suf` when it
ends with it, `s` unchanged otherwise. -/
def trimSuffix (s suf : List Char) : List Char :=
  if suf.isSuffixOf s then s.take (s.length - suf.length) else s

/-- The alphabet the random suffix draws from (`chars` in
`randomDBName`). -/
def dbNameChars : List Char := "abcdefghijklmnopqrstuvwxyz".data

/-- The ten-character random token: `idxs` are the values of the ten
`random.Intn(len(chars))` draws, each indexing into `dbNameChars`. -/
def randomSuffix (idxs : List Nat) : List Char :=
  idxs.map (fun i => dbNameChars.getD i 'a')

/-- `randomDBName` (pqtest.go:141-153): the random token, optionally
extended with `_<base name of the caller file minus ".go">`, passed to
`formatDBName` with the current time. -/
def randomDBName (idxs : List Nat) (file : List Char) (t : GoTime) :
    List Char :=
  let s := randomSuffix idxs
  let withoutExt := trimSuffix (goBase file) ".go".data
  let suffix := if withoutExt = [] then s else s ++ '_' :: withoutExt
  formatDBName suffix t

/-- The caller-file tag appended to the random token: empty when
trimming leaves nothing, otherwise an underscore and the trimmed base
name. -/
def callerTag (file : List Char) : List Char :=
  let withoutExt := trimSuffix (goBase file) ".go".data
  if withoutExt = [] then [] else '_' :: withoutExt

theorem randomSuffix_length {idxs : List Nat} (h : idxs.length = 10) :
    (randomSuffix idxs).length = 10 := by
  simp [randomSuffix, h]

theorem dbNameChars_getD_isLower :
    ∀ i, (dbNameChars.getD i 'a').isLower := by
  intro i
  rcases Nat.lt_or_ge i 26 with h | h
  · revert h
    show i < 26 → (dbNameChars.getD i 'a').isLower
    revert i
    decide
  · rw [List.getD_eq_default]
    · decide
    · simpa [dbNameChars] using h

theorem randomSuffix_isLower (idxs : List Nat) :
    ∀ c ∈ randomSuffix idxs, c.isLower := by
  intro c hc
  simp only [randomSuffix, List.mem_map] at hc
  obtain ⟨i, _, rfl⟩ := hc
  exact dbNameChars_getD_isLower i

theorem randomDBName_eq (idxs : List Nat) (file : List Char) (t : GoTime) :
    randomDBName idxs file t =
      "pqtest_".data ++ fmtTime t ++ "Z_".data ++
        (randomSuffix idxs ++ callerTag file) := by
  unfold randomDBName callerTag formatDBName
  by_cases h : trimSuffix (goBase file) ".go".data = [] <;>
    simp [h]

/-! ## The garbage collector (pqtest.go:160-190) -/

/-- The SQL pattern `datname LIKE 'pqtest_%'`: six literal characters
`pqtest`, the single-character wildcard `_`, then the any-sequence
wildcard `%` — i.e. the name starts with `pqtest` and has at least
seven characters. -/
def matchesGCPattern (name : List Char) : Bool :=
  decide (name.take 6 = "pqtest".data) && decide (7 ≤ name.length)

/-- The WHERE clause of the collector's eligibility query
(pqtest.go:163-166) as evaluated by the server under the C collation:
the LIKE pattern, and the name strictly below the boundary string
`formatDBName("db", gcTime)` where `gcTime = now - 3 minutes`. -/
def gcSelects (gcTime : GoTime) (name : List Char) : Bool :=
  matchesGCPattern name && lexLt name (formatDBName "db".data gcTime)

/-- An error from the database driver. -/
structure Err where
  msg : String
deriving DecidableEq, Repr

/-- What the eligibility query produced: the `db.Query` call itself
failed, or rows arrived — each row's `Scan` either yields a name or
fails — with a terminal `rows.Err()`. -/
inductive GCOutcome where
  | queryFail (e : Err)
  | rows (scans : List (Except Err (List Char))) (rowsErr : Option Err)
deriving Repr

/-- The row-scanning loop (pqtest.go:171-179): names accumulate in
order until the first `Scan` error, which is returned at once. -/
def gcScan : List (Except Err (List Char)) → Except Err (List (List Char))
  | [] => .ok []
  | .error e :: _ => .error e
  | .ok n :: rest => (gcScan rest).map (n :: ·)

/-- The drop-dispatch loop (pqtest.go:183-188): iterate with index,
`break` as soon as the index exceeds 5 — so the first six names get a
`DROP DATABASE` dispatched. -/
def gcDropsAux : Nat → List (List Char) → List (List Char)
  | _, [] => []
  | i, n :: rest => if 5 < i then [] else n :: gcDropsAux (i + 1) rest

def gcDrops (names : List (List Char)) : List (List Char) :=
  gcDropsAux 0 names

/-- `garbageCollectDBs` (pqtest.go:160-190): on success, the names
whose drops were dispatched; any enumeration failure (query, scan, or
`rows.Err()`) is returned instead, before any drop is dispatched. -/
def garbageCollectDBs (out : GCOutcome) : Except Err (List (List Char)) :=
  match out with
  | .queryFail e => .error e
  | .rows scans rowsErr =>
    match gcScan scans with
    | .error e => .error e
    | .ok names =>
      match rowsErr with
      | some e => .error e
      | none => .ok (gcDrops names)

/-- The collector with the fate of each dispatched drop made explicit:
`dropResult` is what each fired-and-forgotten `go db.Exec("DROP
DATABASE ...")` would produce.  The definition consults it only to
record the pairs — mirroring that the goroutines' results are
discarded. -/
structure GCRun where
  dropsIssued : List (List Char × Option Err)
  ret : Option Err
deriving Repr

def gcWithDropResults (out : GCOutcome)
    (dropResult : List Char → Option Err) : GCRun :=
  match garbageCollectDBs out with
  | .error e => { dropsIssued := [], ret := some e }
  | .ok drops =>
    { dropsIssued := drops.map (fun n => (n, dropResult n)), ret := none }

theorem gcDropsAux_eq_take (l : List (List Char)) :
    ∀ i, gcDropsAux i l = l.take (6 - i) := by
  induction l with
  | nil => intro i; simp [gcDropsAux]
  | cons n rest ih =>
    intro i
    by_cases h : 5 < i
    · have : 6 - i = 0 := by omega
      simp [gcDropsAux, h, this]
    · have : 6 - i = (6 - (i + 1)) + 1 := by omega
      simp [gcDropsAux, h, this, ih]

theorem gcDrops_eq_take (names : List (List Char)) :
    gcDrops names = names.take 6 := by
  simpa using gcDropsAux_eq_take names 0

theorem gcScan_all_ok (names : List (List Char)) :
    gcScan (names.map Except.ok) = .ok names := by
  induction names with
  | nil => rfl
  | cons n rest ih => simp [gcScan, ih, Except.map]

theorem matchesGCPattern_formatDBName (suffix : List Char) (t : GoTime) :
    matchesGCPattern (formatDBName suffix t) = true := by
  unfold matchesGCPattern formatDBName
  rw [Bool.and_eq_true, decide_eq_true_iff, decide_eq_true_iff]
  refine ⟨rfl, ?_⟩
  simp [List.length_append, fmtTime_length]

/-! ## Claim theorems -/

/-- C1: a name carrying the ephemeral prefix whose embedded timestamp is
strictly older than `gcTime = now - 3 minutes` satisfies the collector's
eligibility predicate (LIKE `'pqtest_%'` and strictly below the boundary
`formatDBName "db" gcTime`), a name whose embedded timestamp is strictly
newer does not, and with databases timestamped 10, 5 and 1 minutes
before a noon instant (window 3 minutes) exactly the first two are
selected. -/
theorem gc_eligibility_correct (gcTime t : GoTime) (suffix : List Char)
    (hg : gcTime.valid) (ht : t.valid) :
    (t.chronoLt gcTime →
      gcSelects gcTime (formatDBName suffix t) = true) ∧
    (gcTime.chronoLt t →
      gcSelects gcTime (formatDBName suffix t) = false) ∧
    (gcSelects ⟨2024, 1, 1, 11, 57, 0⟩
        (formatDBName "aaaaaaaaaa".data ⟨2024, 1, 1, 11, 50, 0⟩) = true ∧
      gcSelects ⟨2024, 1, 1, 11, 57, 0⟩
        (formatDBName "bbbbbbbbbb".data ⟨2024, 1, 1, 11, 55, 0⟩) = true ∧
      gcSelects ⟨2024, 1, 1, 11, 57, 0⟩
        (formatDBName "cccccccccc".data ⟨2024, 1, 1, 11, 59, 0⟩) = false) := by
  refine ⟨fun h => ?_, fun h => ?_, by decide⟩
  · unfold gcSelects
    rw [matchesGCPattern_formatDBName, formatDBName_lt suffix "db".data ht hg h]
    rfl
  · unfold gcSelects
    rw [lexLt_asymm (formatDBName_lt "db".data suffix hg ht h), Bool.and_false]

theorem gc_eligibility_correct_witness :
    (GoTime.chronoLt ⟨2024, 1, 1, 11, 50, 0⟩ ⟨2024, 1, 1, 11, 57, 0⟩ →
      gcSelects ⟨2024, 1, 1, 11, 57, 0⟩
        (formatDBName "xyxyxyxyxy".data ⟨2024, 1, 1, 11, 50, 0⟩) = true) ∧
    (GoTime.chronoLt ⟨2024, 1, 1, 11, 57, 0⟩ ⟨2024, 1, 1, 11, 50, 0⟩ →
      gcSelects ⟨2024, 1, 1, 11, 57, 0⟩
        (formatDBName "xyxyxyxyxy".data ⟨2024, 1, 1, 11, 50, 0⟩) = false) ∧
    (gcSelects ⟨2024, 1, 1, 11, 57, 0⟩
        (formatDBName "aaaaaaaaaa".data ⟨2024, 1, 1, 11, 50, 0⟩) = true ∧
      gcSelects ⟨2024, 1, 1, 11, 57, 0⟩
        (formatDBName "bbbbbbbbbb".data ⟨2024, 1, 1, 11, 55, 0⟩) = true ∧
      gcSelects ⟨2024, 1, 1, 11, 57, 0⟩
        (formatDBName "cccccccccc".data ⟨2024, 1, 1, 11, 59, 0⟩) = false) :=
  gc_eligibility_correct ⟨2024, 1, 1, 11, 57, 0⟩ ⟨2024, 1, 1, 11, 50, 0⟩
    "xyxyxyxyxy".data (by decide) (by decide)

/-- C2: each collection pass dispatches `DROP DATABASE` for at most six
of the names the query enumerated — exactly the first six, the break
firing once the loop index exceeds 5 — and the names beyond that bound
are untouched by the pass: the dispatched list is precisely
`names.take 6`. -/
theorem gc_bounded_drops (names : List (List Char)) :
    (gcDrops names).length ≤ 6 ∧
    gcDrops names = names.take 6 ∧
    garbageCollectDBs (.rows (names.map Except.ok) none) =
      .ok (names.take 6) := by
  refine ⟨?_, gcDrops_eq_take names, ?_⟩
  · rw [gcDrops_eq_take]
    simp
  · simp [garbageCollectDBs, gcScan_all_ok, gcDrops_eq_take]

/-- C4: for valid instants ordered at the one-second resolution of the
14-digit timestamp, the generated name at the earlier instant is
lexicographically strictly below the one at the later instant, for any
two suffixes. -/
theorem name_time_monotone (t₁ t₂ : GoTime) (s₁ s₂ : List Char)
    (h1 : t₁.valid) (h2 : t₂.valid) (h : t₁.chronoLt t₂) :
    lexLt (formatDBName s₁ t₁) (formatDBName s₂ t₂) = true :=
  formatDBName_lt s₁ s₂ h1 h2 h

theorem name_time_monotone_witness :
    lexLt (formatDBName "zzzzzzzzzz".data ⟨2024, 1, 1, 0, 0, 0⟩)
      (formatDBName "aaaaaaaaaa".data ⟨2024, 1, 1, 0, 0, 2⟩) = true :=
  name_time_monotone ⟨2024, 1, 1, 0, 0, 0⟩ ⟨2024, 1, 1, 0, 0, 2⟩
    "zzzzzzzzzz".data "aaaaaaaaaa".data (by decide) (by decide) (by decide)

/-- C5: every generated name is the fixed prefix `pqtest`, an
underscore, exactly 14 decimal digits of UTC creation time, the literal
`Z_`, the ten-character lowercase random token, and — exactly when
trimming `.go` off the caller file's base name leaves something — an
underscore followed by that trimmed base name. -/
theorem name_structure (idxs : List Nat) (file : List Char) (t : GoTime)
    (hlen : idxs.length = 10) (ht : t.valid) :
    randomDBName idxs file t =
      "pqtest_".data ++ fmtTime t ++ "Z_".data ++
        (randomSuffix idxs ++
          (if trimSuffix (goBase file) ".go".data = [] then []
           else '_' :: trimSuffix (goBase file) ".go".data)) ∧
    (fmtTime t).length = 14 ∧
    (∀ c ∈ fmtTime t, c.isDigit) ∧
    (randomSuffix idxs).length = 10 ∧
    (∀ c ∈ randomSuffix idxs, c.isLower) := by
  refine ⟨?_, fmtTime_length t, fmtTime_isDigit ht,
    randomSuffix_length hlen, randomSuffix_isLower idxs⟩
  rw [randomDBName_eq]
  unfold callerTag
  rfl

theorem name_structure_witness :
    randomDBName [0, 1, 2, 3, 4, 5, 6, 7, 8, 9] "/tmp/foo_test.go".data
        ⟨2024, 1, 1, 11, 50, 0⟩ =
      "pqtest_".data ++ fmtTime ⟨2024, 1, 1, 11, 50, 0⟩ ++ "Z_".data ++
        (randomSuffix [0, 1, 2, 3, 4, 5, 6, 7, 8, 9] ++
          (if trimSuffix (goBase "/tmp/foo_test.go".data) ".go".data = []
             then []
           else '_' :: trimSuffix (goBase "/tmp/foo_test.go".data)
             ".go".data)) ∧
    (fmtTime ⟨2024, 1, 1, 11, 50, 0⟩).length = 14 ∧
    (∀ c ∈ fmtTime ⟨2024, 1, 1, 11, 50, 0⟩, c.isDigit) ∧
    (randomSuffix [0, 1, 2, 3, 4, 5, 6, 7, 8, 9]).length = 10 ∧
    (∀ c ∈ randomSuffix [0, 1, 2, 3, 4, 5, 6, 7, 8, 9], c.isLower) :=
  name_structure [0, 1, 2, 3, 4, 5, 6, 7, 8, 9] "/tmp/foo_test.go".data
    ⟨2024, 1, 1, 11, 50, 0⟩ (by decide) (by decide)

/-! ## The connection URL (pqtest.go:115-139) -/

/-- The fields of `net/url.URL` that the administrative connection
string exercises (no Opaque part; components are assumed to lie in the
escape-free subset, so `EscapedPath` coincides with `path`). -/
structure GoURL where
  scheme : String
  userinfo : Option String
  host : String
  path : String
  rawPath : String
  forceQuery : Bool
  rawQuery : String
  fragment : String
deriving DecidableEq, Repr

/-- pqtest.go:123-124: `u.Path = "/" + name; u.RawPath = "/" + name` —
the only mutation `mkdb` applies to the parsed administrative URL. -/
def setDBPath (u : GoURL) (name : String) : GoURL :=
  { u with path := "/" ++ name, rawPath := "/" ++ name }

/-- `url.URL.String()` for the modelled subset: `scheme:`, the
`//userinfo@host` authority when present, the path (with a separating
slash when a host is present and the path lacks one), `?rawQuery` and
`#fragment`. -/
def urlString (u : GoURL) : String :=
  (if u.scheme ≠ "" then u.scheme ++ ":" else "") ++
  (if u.scheme ≠ "" ∨ u.host ≠ "" ∨ u.userinfo.isSome then
    (if u.host ≠ "" ∨ u.path ≠ "" ∨ u.userinfo.isSome then "//" else "") ++
      (match u.userinfo with
       | some ui => ui ++ "@"
       | none => "") ++ u.host
   else "") ++
  (if u.path ≠ "" ∧ u.path.data.head? ≠ some '/' ∧ u.host ≠ ""
   then "/" else "") ++ u.path ++
  (if u.forceQuery ∨ u.rawQuery ≠ "" then "?" ++ u.rawQuery else "") ++
  (if u.fragment ≠ "" then "#" ++ u.fragment else "")

/-- The parse of the default administrative URL
`postgres:///postgres?sslmode=disable`: scheme `postgres`, empty host,
path `/postgres`, query `sslmode=disable`. -/
def defaultAdminURL : GoURL :=
  { scheme := "postgres", userinfo := none, host := "", path := "/postgres",
    rawPath := "", forceQuery := false, rawQuery := "sslmode=disable",
    fragment := "" }

/-- C9: rewriting the URL for the fresh database replaces exactly the
path (and its raw twin) with `/<name>` and leaves scheme, user info,
host, query and fragment untouched; serializing the rewritten default
administrative URL yields `postgres:///<name>?sslmode=disable`. -/
theorem mkdb_url_rewrite (u : GoURL) (name : String) :
    (setDBPath u name).path = "/" ++ name ∧
    (setDBPath u name).rawPath = "/" ++ name ∧
    (setDBPath u name).scheme = u.scheme ∧
    (setDBPath u name).userinfo = u.userinfo ∧
    (setDBPath u name).host = u.host ∧
    (setDBPath u name).forceQuery = u.forceQuery ∧
    (setDBPath u name).rawQuery = u.rawQuery ∧
    (setDBPath u name).fragment = u.fragment ∧
    urlString (setDBPath defaultAdminURL "pqtest_20240101115000Z_abcdefghij") =
      "postgres:///pqtest_20240101115000Z_abcdefghij?sslmode=disable" := by
  refine ⟨rfl, rfl, rfl, rfl, rfl, rfl, rfl, rfl, ?_⟩
  decide

/-! ## Migrations: `filepath.Walk` over a directory (pqtest.go:58-74) -/

mutual

/-- A filesystem node: a regular file with its content, or a
directory. -/
inductive FS where
  | file (content : String)
  | dir (entries : FSEntries)
deriving Repr

/-- A directory's children in the (arbitrary) order the operating
system enumerates them; `filepath.Walk` itself sorts the names. -/
inductive FSEntries where
  | nil
  | cons (name : String) (child : FS) (rest : FSEntries)
deriving Repr

end

/-- `filepath.Ext`: the suffix starting at the final dot of the final
slash-separated element, empty when that element has no dot.  Scans the
reversed path, accumulating until a dot (found) or a slash (none). -/
def extAux : List Char → List Char → List Char
  | _, [] => []
  | acc, c :: rest =>
    if c = '/' then []
    else if c = '.' then c :: acc
    else extAux (c :: acc) rest

def goExt (p : List Char) : List Char := extAux [] p.reverse

/-- Sibling order used by the walk: `a` before `b` when `b`'s name is
not strictly below `a`'s — the non-strict byte-wise order
`sort.Strings` establishes on the directory's names. -/
def nameLe (a b : String × List (List Char)) : Prop :=
  lexLt b.1.data a.1.data = false

instance : DecidableRel nameLe := fun _ _ => instDecidableEqBool _ _

/-- The per-directory sort of `filepath.Walk` (its `readDirNames`
sorts the enumerated names before visiting). -/
@[reducible] def sortResults (l : List (String × List (List Char))) :
    List (String × List (List Char)) :=
  List.insertionSort nameLe l

@[reducible] def flattenResults (l : List (String × List (List Char))) :
    List (List Char) :=
  l.flatMap (fun pr => pr.2)

mutual

/-- The paths `Migrations` appends to `schemaPaths`
(pqtest.go:60-69): `filepath.Walk` visits the node at `path`, keeps it
when it is a regular file whose extension is `.sql` (directories are
skipped by the `info.IsDir()` guard), and visits a directory's
children in sorted name order, joining names with `/`. -/
def walkCollect (path : List Char) : FS → List (List Char)
  | .file _ => if goExt path = ".sql".data then [path] else []
  | .dir entries => flattenResults (sortResults (walkEntries path entries))

def walkEntries (path : List Char) : FSEntries → List (String × List (List Char))
  | .nil => []
  | .cons nm child rest =>
    (nm, walkCollect (path ++ '/' :: nm.data) child) :: walkEntries path rest

end

mutual

/-- The same collection without the per-directory sort: the regular
files under the node whose extension is `.sql`, in raw enumeration
order — the reference against which the walk is a permutation. -/
def allSqlFiles (path : List Char) : FS → List (List Char)
  | .file _ => if goExt path = ".sql".data then [path] else []
  | .dir entries => allSqlEntries path entries

def allSqlEntries (path : List Char) : FSEntries → List (List Char)
  | .nil => []
  | .cons nm child rest =>
    allSqlFiles (path ++ '/' :: nm.data) child ++ allSqlEntries path rest

end

theorem lexLt_false_trans {a b c : List Char}
    (h1 : lexLt b a = false) (h2 : lexLt c b = false) : lexLt c a = false := by
  induction a generalizing b c with
  | nil => cases c <;> rfl
  | cons x xs ih =>
    cases b with
    | nil => simp [lexLt] at h1
    | cons y ys =>
      cases c with
      | nil => simp [lexLt] at h2
      | cons z zs =>
        by_cases hyx : y < x
        · simp [lexLt, hyx] at h1
        · by_cases hzy : z < y
          · simp [lexLt, hzy] at h2
          · have hxy : x ≤ y := le_of_not_lt hyx
            have hyz : y ≤ z := le_of_not_lt hzy
            have hzx : ¬ z < x := not_lt_of_le (le_trans hxy hyz)
            by_cases hxz : x < z
            · simp [lexLt, hzx, hxz]
            · have hzx' : z ≤ x := le_of_not_lt hxz
              have hyx' : y = x := le_antisymm (le_trans hyz hzx') hxy
              have hzx'' : z = x := le_antisymm hzx' (le_trans hxy hyz)
              subst hyx'
              subst hzx''
              simp only [lexLt, lt_irrefl, if_false] at h1 h2 ⊢
              exact ih h1 h2

instance : IsTotal (String × List (List Char)) nameLe :=
  ⟨fun a b => by
    unfold nameLe
    cases h : lexLt b.1.data a.1.data
    · exact Or.inl rfl
    · exact Or.inr (lexLt_asymm h)⟩

instance : IsTrans (String × List (List Char)) nameLe :=
  ⟨fun _ _ _ h1 h2 => lexLt_false_trans h1 h2⟩

theorem sortResults_sorted (l : List (String × List (List Char))) :
    List.Sorted nameLe (sortResults l) :=
  List.sorted_insertionSort nameLe l

theorem walkCollect_dir (path : List Char) (entries : FSEntries) :
    walkCollect path (.dir entries) =
      flattenResults (sortResults (walkEntries path entries)) := by
  unfold walkCollect
  rfl

theorem allSqlFiles_dir (path : List Char) (entries : FSEntries) :
    allSqlFiles path (.dir entries) = allSqlEntries path entries := by
  unfold allSqlFiles
  rfl

theorem walkEntries_cons (path : List Char) (nm : String) (child : FS)
    (rest : FSEntries) :
    walkEntries path (.cons nm child rest) =
      (nm, walkCollect (path ++ '/' :: nm.data) child) ::
        walkEntries path rest := by
  unfold walkEntries
  cases rest <;> rfl

theorem allSqlEntries_cons (path : List Char) (nm : String) (child : FS)
    (rest : FSEntries) :
    allSqlEntries path (.cons nm child rest) =
      allSqlFiles (path ++ '/' :: nm.data) child ++
        allSqlEntries path rest := by
  unfold allSqlEntries
  cases rest <;> rfl

mutual

theorem walkCollect_perm (path : List Char) :
    (t : FS) → (walkCollect path t).Perm (allSqlFiles path t)
  | .file _ => List.Perm.refl _
  | .dir entries => by
    rw [walkCollect_dir, allSqlFiles_dir]
    exact ((List.perm_insertionSort nameLe (walkEntries path entries)).flatMap_right
      (fun pr => pr.2)).trans (walkEntries_perm path entries)

theorem walkEntries_perm (path : List Char) :
    (es : FSEntries) →
      (flattenResults (walkEntries path es)).Perm (allSqlEntries path es)
  | .nil => List.Perm.refl _
  | .cons nm child rest => by
    rw [walkEntries_cons, allSqlEntries_cons]
    exact (walkCollect_perm (path ++ '/' :: nm.data) child).append
      (walkEntries_perm path rest)

end

/-! ## Options and the provisioning flow `Open` (pqtest.go:29-139) -/

/-- The options the package exports: `SchemaFile` (pqtest.go:49-53)
and `Migrations` (pqtest.go:58-74).  `Option`'s `apply` method and the
`optionData` record are unexported, so these two are the only values a
caller can pass to `Open`. -/
inductive PqOption where
  | schemaFile (filePath : String)
  | migrations (dir : String)
deriving DecidableEq, Repr

/-- `optionData` (pqtest.go:35-39). -/
structure optionData where
  schema : List String
  schemaPaths : List String
  databaseURL : String
deriving DecidableEq, Repr

/-- The record `Open` starts from (pqtest.go:82-84): only the default
administrative URL is set. -/
def defaultOptionData : optionData :=
  { schema := [], schemaPaths := [],
    databaseURL := "postgres:///postgres?sslmode=disable" }

/-- One option's `apply`: `SchemaFile` appends its path;
`Migrations` walks the directory tree `lookup` resolves for it,
appending every collected path, and reports a fatal message when the
walk fails (directory missing).  Neither touches `databaseURL`. -/
def applyOption (lookup : String → Option FS) (opt : PqOption)
    (d : optionData) : optionData × List String :=
  match opt with
  | .schemaFile fp => ({ d with schemaPaths := d.schemaPaths ++ [fp] }, [])
  | .migrations dir =>
    match lookup dir with
    | none => (d, ["walk " ++ dir])
    | some t =>
      ({ d with schemaPaths :=
          d.schemaPaths ++ (walkCollect dir.data t).map String.mk }, [])

/-- The option loop of `Open` (pqtest.go:85-87), parametrised by
whether the caller's `Fatal` terminates (`stops = true`) or returns:
result, accumulated fatal messages, and whether execution aborted. -/
def applyOptions (stops : Bool) (lookup : String → Option FS) :
    List PqOption → optionData → optionData × List String × Bool
  | [], d => (d, [], false)
  | opt :: rest, d =>
    match applyOption lookup opt d with
    | (d1, []) => applyOptions stops lookup rest d1
    | (d1, fs) =>
      if stops then (d1, fs, true)
      else
        let r := applyOptions stops lookup rest d1
        (r.1, fs ++ r.2.1, r.2.2)

/-- The read loop of `Open` (pqtest.go:89-95): each schema path is
read; a failure reports through `Fatal` — and, when `Fatal` returns,
the nil byte slice still lands in `schema` as the empty string. -/
def buildSchema (stops : Bool) (readFile : String → Except Err String) :
    List String → List String × List String × Bool
  | [] => ([], [], false)
  | sp :: rest =>
    match readFile sp with
    | .ok s =>
      let r := buildSchema stops readFile rest
      (s :: r.1, r.2.1, r.2.2)
    | .error e =>
      if stops then ([], [sp ++ " " ++ e.msg], true)
      else
        let r := buildSchema stops readFile rest
        ("" :: r.1, (sp ++ " " ++ e.msg) :: r.2.1, r.2.2)

/-- A statement issued on the administrative control connection. -/
inductive AdminStmt where
  | gcQuery
  | dropDB (name : List Char)
  | createDB (name : List Char)
deriving DecidableEq, Repr

/-- The driver-level outcomes `mkdb` depends on. -/
structure MkdbEnv where
  parseURL : String → Except Err GoURL
  ctlOpenErr : Option Err
  gcOut : GCOutcome
  createErr : Option Err

/-- `mkdb` (pqtest.go:115-139): parse the administrative URL, rewrite
its path to the new name, open the control connection, garbage-collect
(any enumeration error returns at once, before `CREATE DATABASE`),
then issue `CREATE DATABASE` and return the rewritten URL string
together with the create's error. -/
def mkdb (env : MkdbEnv) (name : List Char) (dbURL : String) :
    List AdminStmt × String × Option Err :=
  match env.parseURL dbURL with
  | .error e => ([], "", some e)
  | .ok u =>
    let u2 := setDBPath u (String.mk name)
    match env.ctlOpenErr with
    | some e => ([], "", some e)
    | none =>
      match garbageCollectDBs env.gcOut with
      | .error e => ([.gcQuery], "", some e)
      | .ok drops =>
        ([.gcQuery] ++ drops.map AdminStmt.dropDB ++ [.createDB name],
          urlString u2, env.createErr)

/-- The schema-execution loop of `Open` (pqtest.go:106-111): each blob
is executed; a failure reports through `Fatal`, and when `Fatal`
returns the loop moves on to the next blob. -/
def execSchemas (stops : Bool) (execErr : String → Option Err) :
    List String → List String × List String × Bool
  | [] => ([], [], false)
  | s :: rest =>
    match execErr s with
    | none =>
      let r := execSchemas stops execErr rest
      (s :: r.1, r.2.1, r.2.2)
    | some e =>
      if stops then ([s], [e.msg], true)
      else
        let r := execSchemas stops execErr rest
        (s :: r.1, e.msg :: r.2.1, r.2.2)

/-- Everything external `Open` consumes: the filesystem, the reads,
the driver outcomes, and the generated name. -/
structure OpenEnv where
  lookup : String → Option FS
  readFile : String → Except Err String
  mkdbEnv : MkdbEnv
  newName : List Char
  dbOpenErr : Option Err
  execErr : String → Option Err

/-- What a run of `Open` did: `Fatal` messages in order, the final
options record, the administrative statements issued, the schema blobs
executed, and whether the `return db` at pqtest.go:112 was reached. -/
structure OpenTrace where
  fatals : List String
  data : optionData
  adminStmts : List AdminStmt
  execs : List String
  returned : Bool

/-- `Open` (pqtest.go:81-113) under the two `Fataler` disciplines:
with `stops = true` a `Fatal` call terminates the run at its call
site (the `testing.T` contract); with `stops = false` `Fatal` returns
and the straight-line code continues. -/
def openRun (stops : Bool) (env : OpenEnv) (opts : List PqOption) :
    OpenTrace :=
  let r1 := applyOptions stops env.lookup opts defaultOptionData
  let d1 := r1.1
  if r1.2.2 then
    { fatals := r1.2.1, data := d1, adminStmts := [], execs := [],
      returned := false }
  else
    let r2 := buildSchema stops env.readFile d1.schemaPaths
    let d2 := { d1 with schema := d1.schema ++ r2.1 }
    let fat12 := r1.2.1 ++ r2.2.1
    if r2.2.2 then
      { fatals := fat12, data := d2, adminStmts := [], execs := [],
        returned := false }
    else
      let m := mkdb env.mkdbEnv env.newName d2.databaseURL
      let fat3 := fat12 ++ (match m.2.2 with | some e => [e.msg] | none => [])
      if stops && m.2.2.isSome then
        { fatals := fat3, data := d2, adminStmts := m.1, execs := [],
          returned := false }
      else
        let fat4 := fat3 ++
          (match env.dbOpenErr with | some e => [e.msg] | none => [])
        if stops && env.dbOpenErr.isSome then
          { fatals := fat4, data := d2, adminStmts := m.1, execs := [],
            returned := false }
        else
          let r5 := execSchemas stops env.execErr d2.schema
          { fatals := fat4 ++ r5.2.1, data := d2, adminStmts := m.1,
            execs := r5.1, returned := !r5.2.2 }

theorem applyOption_databaseURL (lookup : String → Option FS)
    (opt : PqOption) (d : optionData) :
    (applyOption lookup opt d).1.databaseURL = d.databaseURL := by
  cases opt with
  | schemaFile fp => rfl
  | migrations dir => cases h : lookup dir <;> simp [applyOption, h]

theorem applyOption_schema (lookup : String → Option FS)
    (opt : PqOption) (d : optionData) :
    (applyOption lookup opt d).1.schema = d.schema := by
  cases opt with
  | schemaFile fp => rfl
  | migrations dir => cases h : lookup dir <;> simp [applyOption, h]

theorem applyOptions_databaseURL (stops : Bool) (lookup : String → Option FS) :
    ∀ (opts : List PqOption) (d : optionData),
      (applyOptions stops lookup opts d).1.databaseURL = d.databaseURL := by
  intro opts
  induction opts with
  | nil => intro d; rfl
  | cons opt rest ih =>
    intro d
    have hurl := applyOption_databaseURL lookup opt d
    cases hap : applyOption lookup opt d with
    | mk d1 fs =>
      rw [hap] at hurl
      cases fs with
      | nil =>
        simp only [applyOptions, hap]
        rw [ih d1, hurl]
      | cons f fs' =>
        simp only [] at hurl
        by_cases hs : stops
        · simp [applyOptions, hap, hs, hurl]
        · simp only [Bool.not_eq_true] at hs
          subst hs
          simp [applyOptions, hap, ih d1, hurl]

theorem applyOptions_schema (stops : Bool) (lookup : String → Option FS) :
    ∀ (opts : List PqOption) (d : optionData),
      (applyOptions stops lookup opts d).1.schema = d.schema := by
  intro opts
  induction opts with
  | nil => intro d; rfl
  | cons opt rest ih =>
    intro d
    have hsch := applyOption_schema lookup opt d
    cases hap : applyOption lookup opt d with
    | mk d1 fs =>
      rw [hap] at hsch
      cases fs with
      | nil =>
        simp only [applyOptions, hap]
        rw [ih d1, hsch]
      | cons f fs' =>
        simp only [] at hsch
        by_cases hs : stops
        · simp [applyOptions, hap, hs, hsch]
        · simp only [Bool.not_eq_true] at hs
          subst hs
          simp [applyOptions, hap, ih d1, hsch]

theorem applyOptions_nonstop (lookup : String → Option FS) :
    ∀ (opts : List PqOption) (d : optionData),
      (applyOptions false lookup opts d).2.2 = false := by
  intro opts
  induction opts with
  | nil => intro d; rfl
  | cons opt rest ih =>
    intro d
    cases hap : applyOption lookup opt d with
    | mk d1 fs =>
      cases fs with
      | nil => simp only [applyOptions, hap]; exact ih d1
      | cons f fs' => simp [applyOptions, hap, ih d1]

theorem buildSchema_nonstop (readFile : String → Except Err String) :
    ∀ paths : List String,
      (buildSchema false readFile paths).1 =
        paths.map (fun sp =>
          match readFile sp with
          | .ok s => s
          | .error _ => "") ∧
      (buildSchema false readFile paths).2.2 = false := by
  intro paths
  induction paths with
  | nil => exact ⟨rfl, rfl⟩
  | cons sp rest ih =>
    cases h : readFile sp <;>
      simp [buildSchema, h, ih.1, ih.2]

theorem execSchemas_nonstop (execErr : String → Option Err) :
    ∀ blobs : List String,
      (execSchemas false execErr blobs).1 = blobs ∧
      (execSchemas false execErr blobs).2.2 = false := by
  intro blobs
  induction blobs with
  | nil => exact ⟨rfl, rfl⟩
  | cons s rest ih =>
    cases h : execErr s <;>
      simp [execSchemas, h, ih.1, ih.2]

/-- A directory `m` holding a subdirectory `ab` (with `c.sql` inside)
and a file `ab.sql`: the walk visits `ab` before `ab.sql` (sibling
names sort that way), yet the full path `m/ab.sql` sorts below
`m/ab/c.sql` because `.` precedes `/` in the byte order. -/
def cexTree : FS :=
  .dir (.cons "ab" (.dir (.cons "c.sql" (.file "C") .nil))
    (.cons "ab.sql" (.file "B") .nil))

/-- The spec's migrations directory, enumerated in adverse order. -/
def migTreeA : FS :=
  .dir (.cons "0002_b.sql" (.file "B")
    (.cons "0001_a.sql" (.file "A") .nil))

/-- The same directory, enumerated in the forward order. -/
def migTreeB : FS :=
  .dir (.cons "0001_a.sql" (.file "A")
    (.cons "0002_b.sql" (.file "B") .nil))

/-- The reads backing the migration files of `migTreeA`/`migTreeB`. -/
def migRead : String → Except Err String := fun sp =>
  if sp = "m/0001_a.sql" then .ok "A"
  else if sp = "m/0002_b.sql" then .ok "B"
  else .error ⟨"no such file"⟩

/-- C3 counterexample: the claim that resolution "orders the resulting
contents by path string" fails at depth: on `cexTree` the walk yields
`m/ab/c.sql` before `m/ab.sql` although `m/ab.sql` is the
lexicographically smaller path, so the output is not sorted by path
string. -/
theorem migrations_not_path_sorted :
    walkCollect "m".data cexTree =
      ["m/ab/c.sql".data, "m/ab.sql".data] ∧
    lexLt "m/ab.sql".data "m/ab/c.sql".data = true ∧
    ¬ List.Pairwise (fun a b : List Char => lexLt b a = false)
        (walkCollect "m".data cexTree) := by
  refine ⟨by decide, by decide, by decide⟩

/-- C3 amended: resolution collects exactly the regular files with
extension `.sql` at any depth (directories excluded) — the walk is a
permutation of the raw enumeration of those files — in pre-order with
siblings sorted by name (which equals path-string order for a flat
directory); on the spec's example directory, either enumeration order
yields `m/0001_a.sql` then `m/0002_b.sql`, and reading the paths in
that order yields content `A` before content `B`. -/
theorem migrations_resolution (path : List Char) (t : FS) :
    (walkCollect path t).Perm (allSqlFiles path t) ∧
    (∀ l, List.Sorted nameLe (sortResults l)) ∧
    walkCollect "m".data migTreeA =
      ["m/0001_a.sql".data, "m/0002_b.sql".data] ∧
    walkCollect "m".data migTreeB =
      ["m/0001_a.sql".data, "m/0002_b.sql".data] ∧
    (buildSchema true migRead
        ((walkCollect "m".data migTreeA).map String.mk)).1 = ["A", "B"] :=
  ⟨walkCollect_perm path t, sortResults_sorted, by decide, by decide,
    by decide⟩

/-- C6 counterexample: no option the package exports changes the
administrative connection target — both `SchemaFile` and `Migrations`
leave `databaseURL` exactly as they found it, so no configuration
option supplied to `Open` can override it. -/
theorem no_databaseURL_option :
    ¬ ∃ (opt : PqOption) (lookup : String → Option FS) (d : optionData),
        (applyOption lookup opt d).1.databaseURL ≠ d.databaseURL := by
  rintro ⟨opt, lookup, d, h⟩
  exact h (applyOption_databaseURL lookup opt d)

/-- C6 amended: the options record does carry the administrative
target, defaulted to `postgres:///postgres?sslmode=disable` and used
by `Open`, but the exported options (`SchemaFile`, `Migrations`) all
preserve it: every run of `Open` operates on the default URL. -/
theorem databaseURL_fixed_default :
    defaultOptionData.databaseURL = "postgres:///postgres?sslmode=disable" ∧
    (∀ (lookup : String → Option FS) (opt : PqOption) (d : optionData),
      (applyOption lookup opt d).1.databaseURL = d.databaseURL) ∧
    (∀ (stops : Bool) (env : OpenEnv) (opts : List PqOption),
      (openRun stops env opts).data.databaseURL =
        "postgres:///postgres?sslmode=disable") := by
  refine ⟨rfl, applyOption_databaseURL, ?_⟩
  intro stops env opts
  have h := applyOptions_databaseURL stops env.lookup opts defaultOptionData
  unfold openRun
  dsimp only
  split
  · exact h
  split
  · exact h
  split
  · exact h
  split
  · exact h
  · exact h

/-- C7: when the garbage collector's enumeration fails (bad query,
scan error, or terminal rows error), `mkdb` returns that error at once
— its statement trace holds only the inventory query, never `CREATE
DATABASE` — and the provisioning run reports the error through the
failure sink and does not return a handle, given that the earlier
phases (option application, schema reads, URL parse, control open) got
that far. -/
theorem gc_failure_fails_open (env : OpenEnv) (opts : List PqOption)
    (u : GoURL) (e : Err)
    (hopt : (applyOptions true env.lookup opts defaultOptionData).2.2 = false)
    (hread : (buildSchema true env.readFile
        (applyOptions true env.lookup opts
          defaultOptionData).1.schemaPaths).2.2 = false)
    (hparse : env.mkdbEnv.parseURL "postgres:///postgres?sslmode=disable" =
      .ok u)
    (hctl : env.mkdbEnv.ctlOpenErr = none)
    (hgc : garbageCollectDBs env.mkdbEnv.gcOut = .error e) :
    mkdb env.mkdbEnv env.newName "postgres:///postgres?sslmode=disable" =
      ([.gcQuery], "", some e) ∧
    (openRun true env opts).returned = false ∧
    e.msg ∈ (openRun true env opts).fatals ∧
    (∀ n, AdminStmt.createDB n ∉ (openRun true env opts).adminStmts) ∧
    (openRun true env opts).execs = [] := by
  have hurl : (applyOptions true env.lookup opts
      defaultOptionData).1.databaseURL = "postgres:///postgres?sslmode=disable" :=
    applyOptions_databaseURL true env.lookup opts defaultOptionData
  have hmk : mkdb env.mkdbEnv env.newName
      "postgres:///postgres?sslmode=disable" = ([.gcQuery], "", some e) := by
    simp [mkdb, hparse, hctl, hgc]
  have hrun : openRun true env opts =
      { fatals := (applyOptions true env.lookup opts defaultOptionData).2.1 ++
          (buildSchema true env.readFile (applyOptions true env.lookup opts
            defaultOptionData).1.schemaPaths).2.1 ++ [e.msg],
        data := { (applyOptions true env.lookup opts defaultOptionData).1 with
          schema := (applyOptions true env.lookup opts
              defaultOptionData).1.schema ++
            (buildSchema true env.readFile (applyOptions true env.lookup opts
              defaultOptionData).1.schemaPaths).1 },
        adminStmts := [.gcQuery], execs := [], returned := false } := by
    unfold openRun
    simp only [hopt, hurl, hmk, hread, if_false, Bool.false_eq_true]
    simp [hread]
  rw [hrun]
  refine ⟨hmk, rfl, ?_, ?_, rfl⟩
  · simp
  · intro n
    simp

/-- The environment of the C7 witness: empty options, a parseable
default URL, a healthy control connection, and an inventory query that
fails with `conn refused`. -/
def c7Env : OpenEnv :=
  { lookup := fun _ => none
    readFile := fun _ => .error ⟨"io error"⟩
    mkdbEnv :=
      { parseURL := fun _ => .ok defaultAdminURL
        ctlOpenErr := none
        gcOut := .queryFail ⟨"conn refused"⟩
        createErr := none }
    newName := "pqtest_20240101115000Z_abcdefghij".data
    dbOpenErr := none
    execErr := fun _ => none }

theorem gc_failure_fails_open_witness :
    mkdb c7Env.mkdbEnv c7Env.newName
      "postgres:///postgres?sslmode=disable" =
      ([.gcQuery], "", some ⟨"conn refused"⟩) ∧
    (openRun true c7Env []).returned = false ∧
    Err.msg ⟨"conn refused"⟩ ∈ (openRun true c7Env []).fatals ∧
    (∀ n, AdminStmt.createDB n ∉ (openRun true c7Env []).adminStmts) ∧
    (openRun true c7Env []).execs = [] :=
  gc_failure_fails_open c7Env [] defaultAdminURL ⟨"conn refused"⟩
    rfl rfl rfl rfl rfl

/-- C8: the collector's return value never depends on the outcomes of
the drops it dispatches — two runs differing only in drop outcomes
return the same thing — and whenever enumeration succeeds the
collector returns success, however the dispatched drops fare; no drop
outcome is surfaced anywhere but in the fire-and-forget pairs
themselves. -/
theorem gc_drop_outcomes_invisible (out : GCOutcome)
    (dr dr' : List Char → Option Err) :
    (gcWithDropResults out dr).ret = (gcWithDropResults out dr').ret ∧
    (∀ drops, garbageCollectDBs out = .ok drops →
      (gcWithDropResults out dr).ret = none ∧
      (gcWithDropResults out dr).dropsIssued =
        drops.map (fun n => (n, dr n))) := by
  cases h : garbageCollectDBs out with
  | error e =>
    refine ⟨by simp [gcWithDropResults, h], ?_⟩
    intro drops hd
    simp at hd
  | ok drops =>
    refine ⟨by simp [gcWithDropResults, h], ?_⟩
    intro drops' hd
    simp only [Except.ok.injEq] at hd
    subst hd
    exact ⟨by simp [gcWithDropResults, h], by simp [gcWithDropResults, h]⟩

/-- C10: the abort-on-error guarantees of `Open` rest entirely on the
`Fataler` terminating.  When `Fatal` returns instead, `Open` always
reaches its `return db`: an unreadable schema path contributes the
empty string as its schema blob, and every blob is executed even when
earlier reads or executions failed. -/
theorem fatal_return_unenforced (env : OpenEnv) (opts : List PqOption) :
    (openRun false env opts).returned = true ∧
    (openRun false env opts).data.schema =
      ((applyOptions false env.lookup opts defaultOptionData).1.schemaPaths).map
        (fun sp =>
          match env.readFile sp with
          | .ok s => s
          | .error _ => "") ∧
    (openRun false env opts).execs = (openRun false env opts).data.schema := by
  have hopt := applyOptions_nonstop env.lookup opts defaultOptionData
  have hsch := applyOptions_schema false env.lookup opts defaultOptionData
  have hbs := buildSchema_nonstop env.readFile
    (applyOptions false env.lookup opts defaultOptionData).1.schemaPaths
  have hex := execSchemas_nonstop env.execErr
  unfold openRun
  simp only [defaultOptionData] at hopt hsch hbs ⊢
  simp only [hopt, Bool.false_eq_true, if_false, Bool.false_and]
  simp only [hbs.2, Bool.false_eq_true, if_false]
  refine ⟨?_, ?_, ?_⟩
  · simp [(hex _).2]
  · rw [hsch]
    simpa using hbs.1
  · simpa using (hex _).1

end Pqtest
